import Mathlib

/-!
A verification development for the hello-go blog-aggregation pipeline.

The Go program crawls several tech blogs, normalizes the results into one
`BlogPost` model, and reduces the combined list through a cutoff-date
filter, title-based deduplication and a recency sort before rendering.

This file gives a shallow embedding of the parts of the program that the
stated properties talk about:

* Go strings are modelled as `List Char` (Go strings are UTF-8 byte
  sequences; for valid UTF-8 data, substring containment, trimming and
  equality agree between the byte view and the codepoint view, and the
  places where the byte view matters — `len` and byte slicing in the
  summary truncation — are modelled explicitly through `utf8Len` /
  `goTruncBytes`).
* `time.Time` values are modelled as `Int` nanoseconds since the Unix
  epoch; `time.Now()` becomes an explicit `now : Int` parameter.
* Network fetches become explicit parameters holding the fetched bodies
  (or `none` for a failed fetch).
* The specific regular expressions used by `naver_crawler.go` are
  implemented by a small backtracking matcher (`RTok`/`mtch`) with
  leftmost-first (Perl-style) semantics, which is the submatch semantics
  of Go's `regexp` package.
-/

namespace HelloGo

/-- Go source: `unicode.IsSpace` — the Unicode White_Space property,
used by `strings.TrimSpace`. -/
def goIsSpace (c : Char) : Bool :=
  c = '\t' || c = '\n' || c = (Char.ofNat 0x0B) || c = (Char.ofNat 0x0C) ||
  c = '\r' || c = ' ' || c = (Char.ofNat 0x85) || c = (Char.ofNat 0xA0) ||
  c = (Char.ofNat 0x1680) ||
  ((Char.ofNat 0x2000) ≤ c && c ≤ (Char.ofNat 0x200A)) ||
  c = (Char.ofNat 0x2028) || c = (Char.ofNat 0x2029) ||
  c = (Char.ofNat 0x202F) || c = (Char.ofNat 0x205F) || c = (Char.ofNat 0x3000)

/-- The character class `\s` of Go's `regexp` (RE2 Perl class):
`[\t\n\f\r ]`. -/
def re2IsSpace (c : Char) : Bool :=
  c = '\t' || c = '\n' || c = (Char.ofNat 0x0C) || c = '\r' || c = ' '

/-- Go source: `strings.TrimSpace` (leading and trailing Unicode
whitespace removed). -/
def goTrimSpace (s : List Char) : List Char :=
  ((s.dropWhile goIsSpace).reverse.dropWhile goIsSpace).reverse

/-- Go source: `strings.Trim(s, cutset)`. -/
def goTrimCutset (cutset : List Char) (s : List Char) : List Char :=
  ((s.dropWhile (cutset.contains ·)).reverse.dropWhile (cutset.contains ·)).reverse

/-- Go source: `strings.ToLower`.  The Go function lowercases all of
Unicode; every cased character appearing in the program's keyword lists
and in the concrete inputs used below is ASCII, so the ASCII mapping is
used here. -/
def goToLowerChar (c : Char) : Char :=
  if 'A' ≤ c && c ≤ 'Z' then Char.ofNat (c.toNat + 32) else c

def goToLower (s : List Char) : List Char :=
  s.map goToLowerChar

/-- Go source: `strings.HasPrefix`. -/
def goStartsWith (pre s : List Char) : Bool :=
  List.isPrefixOf pre s

/-- Go source: `strings.Contains` (substring containment). -/
def goContainsSub : List Char → List Char → Bool
  | hay, needle =>
    if List.isPrefixOf needle hay then true
    else match hay with
      | [] => false
      | _ :: rest => goContainsSub rest needle

/-- Go source: `strings.ReplaceAll(s, pat, rep)` for a non-empty literal
pattern (every pattern used by the program is non-empty; the empty
pattern is mapped to the identity).

The scan walks the string one character at a time; after a match it
carries the number of already-matched characters still to be skipped,
which keeps the recursion structural. -/
def goReplaceAllAux (pat rep : List Char) : Nat → List Char → List Char
  | _, [] => []
  | skip + 1, _ :: cs => goReplaceAllAux pat rep skip cs
  | 0, c :: cs =>
    if List.isPrefixOf pat (c :: cs) then
      rep ++ goReplaceAllAux pat rep (pat.length - 1) cs
    else
      c :: goReplaceAllAux pat rep 0 cs

def goReplaceAll (pat rep s : List Char) : List Char :=
  goReplaceAllAux pat rep 0 s

/-- Byte length of the UTF-8 encoding — Go's `len` on a string. -/
def utf8Len (s : List Char) : Nat :=
  s.foldl (fun n c => n + c.utf8Size) 0

/-- Go byte slicing `s[:n]` used for summary truncation, at codepoint
granularity: keeps the longest prefix of whole characters that fits in
`n` bytes.  (Go slices raw bytes and may cut a UTF-8 rune in half; on
character-aligned boundaries — in particular on ASCII data — the two
agree.) -/
def goTruncBytes (n : Nat) : List Char → List Char
  | [] => []
  | c :: cs => if c.utf8Size ≤ n then c :: goTruncBytes (n - c.utf8Size) cs else []

/-! ## A small regex matcher

`naver_crawler.go` uses `regexp` with a handful of fixed patterns, all of
the shape: literals, character classes with a counted repetition, and
capture groups.  `RTok` represents one token of such a pattern; `mtch`
is a backtracking matcher with Perl-style (leftmost-first, priority to
greedy/lazy as written) semantics, which is what Go's `regexp` package
implements for submatches.  `(?s)` — dot matches newline — is the
default here because the class predicates say exactly which characters
they accept. -/

/-- One token of a pattern: a literal, a character class repeated between
`mn` and `mx` times (greedy or lazy), or the same as a capture group. -/
inductive RTok where
  | lit (cs : List Char)
  | cls (p : Char → Bool) (mn mx : Nat) (greedy : Bool)
  | cap (p : Char → Bool) (mn mx : Nat) (greedy : Bool)

/-- Length of the longest prefix of `s` all of whose characters satisfy
`p`. -/
def clsRun (p : Char → Bool) : List Char → Nat
  | [] => 0
  | c :: cs => if p c then clsRun p cs + 1 else 0

/-- Candidate repetition counts for a class token, in the order a
backtracking engine tries them: longest-first when greedy, shortest-first
when lazy. -/
def clsCandidates (mn mx run : Nat) (greedy : Bool) : List Nat :=
  let hi := min mx run
  if hi < mn then []
  else if greedy then (List.range (hi + 1 - mn)).map (fun t => hi - t)
  else (List.range (hi + 1 - mn)).map (fun t => mn + t)

/-- Match a token list against a prefix of `s`.  Returns the list of
captured substrings (in order) and the number of characters consumed.
One unit of fuel is spent per token, so `toks.length + 1` suffices; the
candidate consumption counts of a class token are tried in order via
`List.findSome?`, which realizes backtracking. -/
def mtchF : Nat → List RTok → List Char → Option (List (List Char) × Nat)
  | 0, _, _ => none
  | _ + 1, [], _ => some ([], 0)
  | f + 1, RTok.lit cs :: rest, s =>
    if List.isPrefixOf cs s then
      (mtchF f rest (s.drop cs.length)).map (fun r => (r.1, r.2 + cs.length))
    else none
  | f + 1, RTok.cls p mn mx g :: rest, s =>
    (clsCandidates mn mx (clsRun p s) g).findSome? (fun k =>
      (mtchF f rest (s.drop k)).map (fun r => (r.1, r.2 + k)))
  | f + 1, RTok.cap p mn mx g :: rest, s =>
    (clsCandidates mn mx (clsRun p s) g).findSome? (fun k =>
      (mtchF f rest (s.drop k)).map (fun r => (s.take k :: r.1, r.2 + k)))

def mtch (toks : List RTok) (s : List Char) : Option (List (List Char) × Nat) :=
  mtchF (toks.length + 1) toks s

/-- Leftmost match of a pattern in `s`: returns
`(start, captures, consumed)` for the first position where the pattern
matches. -/
def findFirst (toks : List RTok) : List Char → Option (Nat × List (List Char) × Nat)
  | [] => (mtch toks []).map (fun r => (0, r.1, r.2))
  | c :: cs =>
    match mtch toks (c :: cs) with
    | some (caps, n) => some (0, caps, n)
    | none => (findFirst toks cs).map (fun r => (r.1 + 1, r.2.1, r.2.2))

/-- First capture group of the leftmost match —
`regexp.FindStringSubmatch` followed by taking index 1. -/
def findCap (toks : List RTok) (s : List Char) : Option (List Char) :=
  match findFirst toks s with
  | some (_, c :: _, _) => some c
  | _ => none

/-- All first-capture-groups of successive non-overlapping leftmost
matches — `regexp.FindAllStringSubmatch(s, -1)` followed by taking index
1 of each.  `fuel` bounds the loop; `s.length + 1` always suffices
because every pattern used here consumes at least one character per
match. -/
def findAllCapsF (toks : List RTok) : Nat → List Char → List (List Char)
  | 0, _ => []
  | f + 1, s =>
    match findFirst toks s with
    | none => []
    | some (pos, caps, n) =>
      if pos + n = 0 then []
      else (caps.headD []) :: findAllCapsF toks f (s.drop (pos + n))

def findAllCaps (toks : List RTok) (s : List Char) : List (List Char) :=
  findAllCapsF toks (s.length + 1) s

/-- `regexp.ReplaceAllString`: replace every non-overlapping leftmost
match by `rep`.  The scan tries a match at each position in turn (which
is exactly the leftmost-match discipline) and skips the matched
characters through the counter, keeping the recursion structural.
Every pattern used with it consumes at least one character whenever it
matches. -/
def replaceAllPatAux (toks : List RTok) (rep : List Char) : Nat → List Char → List Char
  | _, [] => []
  | skip + 1, _ :: cs => replaceAllPatAux toks rep skip cs
  | 0, c :: cs =>
    match mtch toks (c :: cs) with
    | some (_, n + 1) => rep ++ replaceAllPatAux toks rep n cs
    | _ => c :: replaceAllPatAux toks rep 0 cs

def replaceAllPat (toks : List RTok) (rep : List Char) (s : List Char) : List Char :=
  replaceAllPatAux toks rep 0 s

def goAnyChar (_ : Char) : Bool := true

/-- A large finite bound standing in for an unbounded repetition; no
string handled by the program comes anywhere near this length, and the
matcher additionally caps every repetition by the length of the
remaining input. -/
def unb : Nat := 1000000000

/-! ## Go `time.Parse`

The crawlers parse dates through `time.Parse(layout, value)` with a fixed
list of layouts.  `LTok` is one element of a layout (a literal, or one of
the reference-time components actually used by the program's layouts);
`runLToks` consumes the input value, and `goDateToInstant` validates the
fields and converts to nanoseconds since the Unix epoch, exactly the
role of `time.Date` inside `Parse`.  All layouts used by the program
carry either an explicit zone token or no zone at all (UTC), so the
result is a well-defined instant. -/

def isDigitCh (c : Char) : Bool := '0' ≤ c && c ≤ '9'

def digitVal (c : Char) : Int := Int.ofNat (c.toNat - '0'.toNat)

/-- Exactly `k` leading digits, their value and the rest. -/
def parseDigits : Nat → List Char → Option (Int × List Char)
  | 0, s => some (0, s)
  | k + 1, c :: cs =>
    if isDigitCh c then
      (parseDigits k cs).map (fun r => (digitVal c * (10 : Int) ^ k + r.1, r.2))
    else none
  | _ + 1, [] => none

/-- Go `getnum` with `fixed == false`: one digit, or two when the second
character is also a digit. -/
def parseNum12 : List Char → Option (Int × List Char)
  | c :: d :: cs =>
    if isDigitCh c then
      if isDigitCh d then some (digitVal c * 10 + digitVal d, cs)
      else some (digitVal c, d :: cs)
    else none
  | [c] => if isDigitCh c then some (digitVal c, []) else none
  | [] => none

/-- Maximal run of leading digits. -/
def takeDigits : List Char → (List Char × List Char)
  | [] => ([], [])
  | c :: cs =>
    if isDigitCh c then
      let r := takeDigits cs
      (c :: r.1, r.2)
    else ([], c :: cs)

def digitsVal (ds : List Char) : Int :=
  ds.foldl (fun a c => a * 10 + digitVal c) 0

def monthNamesShort : List String :=
  ["Jan", "Feb", "Mar", "Apr", "May", "Jun",
   "Jul", "Aug", "Sep", "Oct", "Nov", "Dec"]

def monthNamesFull : List String :=
  ["January", "February", "March", "April", "May", "June",
   "July", "August", "September", "October", "November", "December"]

/-- Go `lookup`: first name that is a case-insensitive prefix of the
value; returns its 1-based index and the remaining input. -/
def lookupName (names : List String) (s : List Char) : Option (Int × List Char) :=
  (names.enum.findSome? fun nv =>
    if List.isPrefixOf (goToLower nv.2.toList) (goToLower s) then
      some (Int.ofNat nv.1 + 1, s.drop nv.2.toList.length)
    else none)

/-- One element of a Go time layout, restricted to the reference-time
components the program's layouts use:
`2006 01 1 Jan January 02 2 15 04 05 .000 Z07:00 -07:00` and literal
text. -/
inductive LTok where
  | lit (cs : List Char)
  | year4
  | month2
  | month1
  | monthShort
  | monthFull
  | day2
  | day1
  | hourTok
  | min2
  | sec2
  | frac3
  | zoneZ
  | zoneNum

/-- Parsed components before validation, with Go's `Parse` defaults
(January 1 of year 0, midnight, UTC). -/
structure GoDate where
  year : Int := 0
  month : Int := 1
  day : Int := 1
  hour : Int := 0
  minute : Int := 0
  sec : Int := 0
  ns : Int := 0
  off : Int := 0
deriving Repr, DecidableEq

/-- `±hh:mm` numeric zone. -/
def parseColonZone (s : List Char) : Option (Int × List Char) :=
  match s with
  | sign :: h1 :: h2 :: colon :: m1 :: m2 :: rest =>
    if (sign = '+' || sign = '-') && isDigitCh h1 && isDigitCh h2 &&
        colon = ':' && isDigitCh m1 && isDigitCh m2 then
      let hh := digitVal h1 * 10 + digitVal h2
      let mm := digitVal m1 * 10 + digitVal m2
      let off := hh * 3600 + mm * 60
      some ((if sign = '-' then -off else off), rest)
    else none
  | _ => none

/-- Fractional-second quirk of Go `Parse`: immediately after the seconds
field, a `.` or `,` followed by digits is accepted even when the layout
has no fractional-second token (at most 9 digits are significant). -/
def parseQuirkFrac (s : List Char) : Option (Int × List Char) :=
  match s with
  | c :: d :: rest =>
    if (c = '.' || c = ',') && isDigitCh d then
      let r := takeDigits (d :: rest)
      if r.1.length > 9 then none
      else some (digitsVal r.1 * (10 : Int) ^ (9 - r.1.length), r.2)
    else none
  | _ => none

/-- Run a layout against an input value — the parsing loop of
`time.Parse`.  Trailing unconsumed input is an error, as in Go. -/
def runLToks : List LTok → List Char → GoDate → Option GoDate
  | [], s, st => if s.isEmpty then some st else none
  | LTok.lit cs :: rest, s, st =>
    if List.isPrefixOf cs s then runLToks rest (s.drop cs.length) st else none
  | LTok.year4 :: rest, s, st =>
    (parseDigits 4 s).bind fun r => runLToks rest r.2 { st with year := r.1 }
  | LTok.month2 :: rest, s, st =>
    (parseDigits 2 s).bind fun r => runLToks rest r.2 { st with month := r.1 }
  | LTok.month1 :: rest, s, st =>
    (parseNum12 s).bind fun r => runLToks rest r.2 { st with month := r.1 }
  | LTok.monthShort :: rest, s, st =>
    (lookupName monthNamesShort s).bind fun r => runLToks rest r.2 { st with month := r.1 }
  | LTok.monthFull :: rest, s, st =>
    (lookupName monthNamesFull s).bind fun r => runLToks rest r.2 { st with month := r.1 }
  | LTok.day2 :: rest, s, st =>
    (parseDigits 2 s).bind fun r => runLToks rest r.2 { st with day := r.1 }
  | LTok.day1 :: rest, s, st =>
    (parseNum12 s).bind fun r => runLToks rest r.2 { st with day := r.1 }
  | LTok.hourTok :: rest, s, st =>
    (parseNum12 s).bind fun r => runLToks rest r.2 { st with hour := r.1 }
  | LTok.min2 :: rest, s, st =>
    (parseDigits 2 s).bind fun r => runLToks rest r.2 { st with minute := r.1 }
  | LTok.sec2 :: rest, s, st =>
    (parseDigits 2 s).bind fun r =>
      let st := { st with sec := r.1 }
      match rest with
      | LTok.frac3 :: _ => runLToks rest r.2 st
      | _ =>
        match parseQuirkFrac r.2 with
        | some q => runLToks rest q.2 { st with ns := q.1 }
        | none => runLToks rest r.2 st
  | LTok.frac3 :: rest, s, st =>
    (match s with
     | '.' :: s' => (parseDigits 3 s').bind fun r =>
         runLToks rest r.2 { st with ns := r.1 * 1000000 }
     | _ => none)
  | LTok.zoneZ :: rest, s, st =>
    (match s with
     | 'Z' :: s' => runLToks rest s' { st with off := 0 }
     | _ => (parseColonZone s).bind fun r => runLToks rest r.2 { st with off := r.1 })
  | LTok.zoneNum :: rest, s, st =>
    (parseColonZone s).bind fun r => runLToks rest r.2 { st with off := r.1 }

def isLeapYear (y : Int) : Bool :=
  y % 4 = 0 && (y % 100 ≠ 0 || y % 400 = 0)

def daysInMonth (y m : Int) : Int :=
  if m = 1 then 31 else if m = 2 then (if isLeapYear y then 29 else 28)
  else if m = 3 then 31 else if m = 4 then 30 else if m = 5 then 31
  else if m = 6 then 30 else if m = 7 then 31 else if m = 8 then 31
  else if m = 9 then 30 else if m = 10 then 31 else if m = 11 then 30
  else 31

/-- Days from 1970-01-01 to `y-m-d` in the proleptic Gregorian calendar.
The year is shifted by 800 (a multiple of 400) so that every quantity
divided is non-negative for the 4-digit years produced by parsing,
making the computation independent of the integer-division convention. -/
def daysFromCivil (y m d : Int) : Int :=
  let y2 := if m ≤ 2 then y + 800 - 1 else y + 800
  let era := y2 / 400
  let yoe := y2 - era * 400
  let mp := (m + 9) % 12
  let doy := (153 * mp + 2) / 5 + d - 1
  let doe := yoe * 365 + yoe / 4 - yoe / 100 + doy
  era * 146097 + doe - 719468 - 292194

/-- Field validation and conversion to nanoseconds since the Unix epoch —
the `time.Date` step at the end of `time.Parse`. -/
def goDateToInstant (st : GoDate) : Option Int :=
  if 1 ≤ st.month && st.month ≤ 12 && 1 ≤ st.day && st.day ≤ daysInMonth st.year st.month &&
      0 ≤ st.hour && st.hour ≤ 23 && 0 ≤ st.minute && st.minute ≤ 59 &&
      0 ≤ st.sec && st.sec ≤ 59 then
    some (((daysFromCivil st.year st.month st.day) * 86400 +
           st.hour * 3600 + st.minute * 60 + st.sec - st.off) * 1000000000 + st.ns)
  else none

/-- `time.Parse(layout, value)` for one tokenized layout. -/
def goTimeParse (toks : List LTok) (s : List Char) : Option Int :=
  (runLToks toks s {}).bind goDateToInstant

/-- Try a list of layouts in order, first success wins — the loop shape
shared by `parseAtomTime` and the crawlers' `parseDate` helpers. -/
def goTimeParseFirst (layouts : List (List LTok)) (s : List Char) : Option Int :=
  layouts.findSome? (fun toks => goTimeParse toks s)

/-! ## Data model — `internal/models/blog.go` -/

/-- Go source: `models.BlogPost`.  `publishedAt` is nanoseconds since the
Unix epoch (`time.Time`). -/
structure BlogPost where
  title : List Char
  url : List Char
  author : List Char
  publishedAt : Int
  summary : List Char
  source : List Char
  category : List Char
  image : List Char
deriving Repr, DecidableEq, Inhabited

/-! ## Naver crawler — `internal/crawlers/naver_crawler.go` -/

/-- `(?s)<entry>(.*?)</entry>` -/
def patEntry : List RTok :=
  [RTok.lit (String.toList "<entry>"), RTok.cap goAnyChar 0 unb false,
   RTok.lit (String.toList "</entry>")]

/-- `(?s)<NAME[^>]*>(.*?)</NAME>` — used with `title`, `published`,
`updated` (and `id`, which the crawler extracts but never puts into the
post, so it is not modelled). -/
def patTag (nm : String) : List RTok :=
  [RTok.lit (String.toList ("<" ++ nm)), RTok.cls (fun c => c ≠ '>') 0 unb true,
   RTok.lit (String.toList ">"), RTok.cap goAnyChar 0 unb false,
   RTok.lit (String.toList ("</" ++ nm ++ ">"))]

/-- `(?s)<link[^>]*href="([^"]*)"[^>]*/>` -/
def patLink : List RTok :=
  [RTok.lit (String.toList "<link"), RTok.cls (fun c => c ≠ '>') 0 unb true,
   RTok.lit (String.toList "href=\""), RTok.cap (fun c => c ≠ '"') 0 unb true,
   RTok.lit (String.toList "\""), RTok.cls (fun c => c ≠ '>') 0 unb true,
   RTok.lit (String.toList "/>")]

/-- `(?s)<category[^>]*term="([^"]*)"[^>]*/>` -/
def patCategory : List RTok :=
  [RTok.lit (String.toList "<category"), RTok.cls (fun c => c ≠ '>') 0 unb true,
   RTok.lit (String.toList "term=\""), RTok.cap (fun c => c ≠ '"') 0 unb true,
   RTok.lit (String.toList "\""), RTok.cls (fun c => c ≠ '>') 0 unb true,
   RTok.lit (String.toList "/>")]

/-- `(?s)<content[^>]*type="html"[^>]*>(.*?)</content>` -/
def patContent : List RTok :=
  [RTok.lit (String.toList "<content"), RTok.cls (fun c => c ≠ '>') 0 unb true,
   RTok.lit (String.toList "type=\"html\""), RTok.cls (fun c => c ≠ '>') 0 unb true,
   RTok.lit (String.toList ">"), RTok.cap goAnyChar 0 unb false,
   RTok.lit (String.toList "</content>")]

/-- `&lt;img[^&]+src=([^&>\s]+)` -/
def patImg : List RTok :=
  [RTok.lit (String.toList "&lt;img"), RTok.cls (fun c => c ≠ '&') 1 unb true,
   RTok.lit (String.toList "src="),
   RTok.cap (fun c => c ≠ '&' && c ≠ '>' && !re2IsSpace c) 1 unb true]

/-- `<[^>]*>` (tag removal in `stripHTMLTags`). -/
def patHtmlTag : List RTok :=
  [RTok.lit (String.toList "<"), RTok.cls (fun c => c ≠ '>') 0 unb true,
   RTok.lit (String.toList ">")]

/-- `\s+` (whitespace collapsing in `stripHTMLTags`). -/
def patWs : List RTok :=
  [RTok.cls re2IsSpace 1 unb true]

/-- Layout `"2006-01-02T15:04:05Z"` — the trailing bare `Z` is literal
text in a Go layout (only `Z07:00`-style chunks denote a zone). -/
def layAtom1 : List LTok :=
  [LTok.year4, LTok.lit ['-'], LTok.month2, LTok.lit ['-'], LTok.day2,
   LTok.lit ['T'], LTok.hourTok, LTok.lit [':'], LTok.min2, LTok.lit [':'],
   LTok.sec2, LTok.lit ['Z']]

/-- Layout `"2006-01-02T15:04:05-07:00"`. -/
def layAtom2 : List LTok :=
  [LTok.year4, LTok.lit ['-'], LTok.month2, LTok.lit ['-'], LTok.day2,
   LTok.lit ['T'], LTok.hourTok, LTok.lit [':'], LTok.min2, LTok.lit [':'],
   LTok.sec2, LTok.zoneNum]

/-- Layout `"2006-01-02T15:04:05.000Z"`. -/
def layAtom3 : List LTok :=
  [LTok.year4, LTok.lit ['-'], LTok.month2, LTok.lit ['-'], LTok.day2,
   LTok.lit ['T'], LTok.hourTok, LTok.lit [':'], LTok.min2, LTok.lit [':'],
   LTok.sec2, LTok.frac3, LTok.lit ['Z']]

/-- Layout `time.RFC3339` = `"2006-01-02T15:04:05Z07:00"`. -/
def layRFC3339 : List LTok :=
  [LTok.year4, LTok.lit ['-'], LTok.month2, LTok.lit ['-'], LTok.day2,
   LTok.lit ['T'], LTok.hourTok, LTok.lit [':'], LTok.min2, LTok.lit [':'],
   LTok.sec2, LTok.zoneZ]

/-- Go source: `NaverCrawler.parseAtomTime` — Atom date formats tried in
order; `none` models the error return (the `time.Now()` half of Go's
error return value is discarded by every caller that sees the error). -/
def parseAtomTime (s : List Char) : Option Int :=
  goTimeParseFirst [layAtom1, layAtom2, layAtom3, layRFC3339] s

/-- Go source: `NaverCrawler.stripHTMLTags` — entity decoding, tag
removal, whitespace collapsing, trim, in exactly that order. -/
def stripHTMLTags (s : List Char) : List Char :=
  let s := goReplaceAll (String.toList "&lt;") (String.toList "<") s
  let s := goReplaceAll (String.toList "&gt;") (String.toList ">") s
  let s := goReplaceAll (String.toList "&amp;") (String.toList "&") s
  let s := goReplaceAll (String.toList "&nbsp;") (String.toList " ") s
  let s := goReplaceAll (String.toList "&quot;") (String.toList "\"") s
  let s := goReplaceAll (String.toList "&#39;") (String.toList "\x27") s
  let s := replaceAllPat patHtmlTag [] s
  let s := replaceAllPat patWs (String.toList " ") s
  goTrimSpace s

/-- Go source: `NaverCrawler.extractThumbnail`. -/
def extractThumbnail (content : List Char) : List Char :=
  match findCap patImg content with
  | none => []
  | some m =>
    let u := goTrimSpace m
    let u := goTrimCutset (String.toList "\"\x27") u
    if goStartsWith (String.toList "/") u then
      String.toList "https://d2.naver.com" ++ u
    else u

/-- One keyword test of `determineCategory`:
`strings.Contains(titleLower, kw) || strings.Contains(summaryLower, kw)`. -/
def kwHit (tl sl : List Char) (kw : String) : Bool :=
  goContainsSub tl kw.toList || goContainsSub sl kw.toList

def kwAnyHit (tl sl : List Char) (kws : List String) : Bool :=
  kws.any (kwHit tl sl)

def aiKeywords : List String :=
  ["ai", "머신러닝", "딥러닝", "llm", "챗봇", "시맨틱", "rag", "nlp", "컴퓨터 비전"]

def dataKeywords : List String :=
  ["데이터", "data", "분석", "analytics", "빅데이터", "datahub", "airflow"]

def searchKeywords : List String :=
  ["검색", "search", "indexing", "형태소", "seo", "elasticsearch"]

def engKeywords : List String :=
  ["개발", "프로그래밍", "코딩", "프론트엔드", "백엔드", "웹", "앱", "서버",
   "클라우드", "docker", "kubernetes", "microservice"]

def startupKeywords : List String :=
  ["협업", "팀워크", "업무", "문화", "조직", "리더", "인터뷰", "소개", "성장", "스타트업"]

/-- Go source: `NaverCrawler.determineCategory` — the five keyword
groups tested in order against the lowercased title and summary (the
`url` argument is accepted and ignored, as in the source); the default
is `엔지니어링`. -/
def determineCategory (title summary _url : List Char) : List Char :=
  let tl := goToLower title
  let sl := goToLower summary
  if kwAnyHit tl sl aiKeywords then String.toList "AI"
  else if kwAnyHit tl sl dataKeywords then String.toList "데이터"
  else if kwAnyHit tl sl searchKeywords then String.toList "검색"
  else if kwAnyHit tl sl engKeywords then String.toList "엔지니어링"
  else if kwAnyHit tl sl startupKeywords then String.toList "IT스타트업"
  else String.toList "엔지니어링"

/-- The summary step of `NaverCrawler.crawlRSS`: strip the markup and,
when the text runs over 200 bytes, cut it to its first 200 bytes and
append an ellipsis (`len` and slicing in Go are byte-based). -/
def rssSummary (content : List Char) : List Char :=
  let s := stripHTMLTags content
  if utf8Len s > 200 then goTruncBytes 200 s ++ String.toList "..." else s

/-- The body of the per-entry loop of `NaverCrawler.crawlRSS`: build one
`BlogPost` from the text between `<entry>` and `</entry>`.  `now` is the
value of `time.Now()` at construction. -/
def mkRssPost (now : Int) (entry : List Char) : BlogPost :=
  let title := ((findCap (patTag "title") entry).map goTrimSpace).getD []
  let url := ((findCap patLink entry).map goTrimSpace).getD []
  let category0 := ((findCap patCategory entry).map goTrimSpace).getD []
  let publishedAt :=
    match findCap (patTag "published") entry with
    | some d => (parseAtomTime (goTrimSpace d)).getD now
    | none =>
      match findCap (patTag "updated") entry with
      | some d => (parseAtomTime (goTrimSpace d)).getD now
      | none => now
  let content := ((findCap patContent entry).map goTrimSpace).getD []
  let summary := rssSummary content
  let imageURL := extractThumbnail content
  let determined := determineCategory title summary url
  let category := if determined ≠ [] then determined else category0
  { title := title, url := url, author := String.toList "네이버 D2",
    publishedAt := publishedAt, summary := summary,
    source := String.toList "네이버 D2", category := category, image := imageURL }

/-- Go source: `NaverCrawler.crawlRSS` applied to a fetched feed body
(the HTTP fetch itself is the caller's `Option`). -/
def crawlRSS (now : Int) (body : List Char) : List BlogPost :=
  (findAllCaps patEntry body).map (mkRssPost now)

/-- Go source: `NaverCrawler.removeDuplicates` — first-seen-wins
deduplication keyed on `post.URL`. -/
def removeDuplicatesAux (seen : List (List Char)) : List BlogPost → List BlogPost
  | [] => []
  | p :: ps =>
    if seen.contains p.url then removeDuplicatesAux seen ps
    else p :: removeDuplicatesAux (p.url :: seen) ps

def removeDuplicates (posts : List BlogPost) : List BlogPost :=
  removeDuplicatesAux [] posts

/-- The slice-mutation primitives shared by the two sorting routines:
`lswap` is `data.Swap(i, j)` (the identity outside bounds, which no call
site exercises) and `lg` is the indexed read `data[i]`. -/
def lswap {α : Type} (l : List α) (i j : Nat) : List α :=
  match l.get? i, l.get? j with
  | some vi, some vj => (l.set i vj).set j vi
  | _, _ => l

def lg {α : Type} [Inhabited α] (l : List α) (i : Nat) : α := (l.get? i).getD default

/-- Inner loop of `NaverCrawler.sortByDate`:
`for j := i+1; j < n; j++ { if posts[i].Before(posts[j]) { swap } }`.
The length bound is passed separately (the swaps preserve it). -/
def exchLoopJ (n : Nat) : Nat → List BlogPost → Nat → Nat → List BlogPost
  | 0, l, _, _ => l
  | f + 1, l, i, j =>
    if j < n then
      exchLoopJ n f
        (if (lg l i).publishedAt < (lg l j).publishedAt then lswap l i j else l) i (j + 1)
    else l

/-- Outer loop of `NaverCrawler.sortByDate`:
`for i := 0; i < n-1; i++`. -/
def exchLoopI (n : Nat) : Nat → List BlogPost → Nat → List BlogPost
  | 0, l, _ => l
  | f + 1, l, i =>
    if i + 1 < n then exchLoopI n f (exchLoopJ n (n + 1) l i (i + 1)) (i + 1) else l

/-- The in-place exchange sort of `NaverCrawler.sortByDate` (descending
by `PublishedAt`). -/
def exchSort (posts : List BlogPost) : List BlogPost :=
  exchLoopI posts.length (posts.length + 1) posts 0

/-- Go source: `NaverCrawler.sortByDate`.  After the loops it executes
`log.Printf(..., posts[0].Title, posts[0].PublishedAt)` unconditionally;
on an empty slice that indexes out of range and panics, modelled as
`none`. -/
def naverSortByDate (posts : List BlogPost) : Option (List BlogPost) :=
  let sorted := exchSort posts
  if sorted.isEmpty then none else some sorted

/-- The RSS loop of `NaverCrawler.Crawl`: try the feed URLs in order; a
failed fetch (`none`) is logged and skipped; the loop stops at the first
feed that yields at least one post. -/
def naverRssLoop (now : Int) : List (Option (List Char)) → List BlogPost
  | [] => []
  | none :: rest => naverRssLoop now rest
  | some body :: rest =>
    let ps := crawlRSS now body
    if ps.isEmpty then naverRssLoop now rest else ps

/-- Go source: `NaverCrawler.Crawl`, with the network abstracted:
`rssBodies` are the five feed fetch results and `detailFetch` the result
of `crawlPostDetail` per URL (`none` = fetch error, skipped).  The final
`sortByDate` call dereferences `posts[0]` for logging, so a run that
collected zero posts panics — the `none` outcome. -/
def naverCrawl (now : Int) (rssBodies : List (Option (List Char)))
    (detailFetch : List Char → Option (List BlogPost)) : Option (List BlogPost) :=
  let rssPosts := naverRssLoop now rssBodies
  let additional := ((rssPosts.take 5).map (fun p => (detailFetch p.url).getD [])).flatten
  let allPosts := rssPosts ++ additional
  naverSortByDate (removeDuplicates allPosts)

/-! ## `sort.Slice` — Go's pattern-defeating quicksort

`cmd/main.go` sorts the final list with `sort.Slice`, which Go
implements with pdqsort (`go/src/sort`, Go 1.19+; the module requires
Go 1.24).  This is a port of that algorithm: `insertionSort`,
`siftDown`/`heapSort`, `partialInsertionSort`, `breakPatterns` with the
`xorshift` generator, `choosePivot` (median / Tukey ninther),
`reverseRange`, `partition`, `partitionEqual` and the main `pdqsort`
loop.  The slice being sorted is threaded through as a `List`; loops
whose termination measure is not a simple counter carry a fuel
parameter, with every call site supplying more fuel than the loop can
consume (each iteration or recursive call strictly shrinks its range),
so the fuel-exhaustion branches are unreachable. -/

section Pdq

variable {α : Type} [Inhabited α]

/-- `data.Less(i, j)`. -/
def lessAt (less : α → α → Bool) (l : List α) (i j : Nat) : Bool :=
  less (lg l i) (lg l j)

/-- `insertionSort`, inner loop:
`for j := i; j > a && data.Less(j, j-1); j-- { data.Swap(j, j-1) }`. -/
def pdqInsertInner (less : α → α → Bool) (a : Nat) : List α → Nat → List α
  | l, 0 => l
  | l, j + 1 =>
    if j + 1 > a ∧ lessAt less l (j + 1) j then
      pdqInsertInner less a (lswap l (j + 1) j) j
    else l

/-- `insertionSort`, outer loop over `i := a+1; i < b`. -/
def pdqInsertOuter (less : α → α → Bool) (a b : Nat) : Nat → List α → Nat → List α
  | 0, l, _ => l
  | f + 1, l, i =>
    if i < b then pdqInsertOuter less a b f (pdqInsertInner less a l i) (i + 1) else l

def pdqInsertionSort (less : α → α → Bool) (l : List α) (a b : Nat) : List α :=
  pdqInsertOuter less a b (b + 1) l (a + 1)

/-- `siftDown` implements the heap property on `data[lo:hi]` with offset
`first`. -/
def pdqSiftDown (less : α → α → Bool) (hi first : Nat) :
    Nat → List α → Nat → List α
  | 0, l, _ => l
  | f + 1, l, root =>
    let child := 2 * root + 1
    if child < hi then
      let child := if child + 1 < hi ∧ lessAt less l (first + child) (first + child + 1)
        then child + 1 else child
      if !lessAt less l (first + root) (first + child) then l
      else pdqSiftDown less hi first f (lswap l (first + root) (first + child)) child
    else l

/-- `heapSort` build phase: `for i := (hi-1)/2; i >= 0; i--`. -/
def pdqHeapBuild (less : α → α → Bool) (hi first : Nat) : List α → Nat → List α
  | l, 0 => pdqSiftDown less hi first (hi + 1) l 0
  | l, i + 1 =>
    pdqHeapBuild less hi first (pdqSiftDown less hi first (hi + 1) l (i + 1)) i

/-- `heapSort` pop phase: `for i := hi - 1; i >= 0; i--`. -/
def pdqHeapPop (less : α → α → Bool) (first : Nat) : List α → Nat → List α
  | l, 0 => pdqSiftDown less 0 first 1 (lswap l first first) 0
  | l, i + 1 =>
    pdqHeapPop less first
      (pdqSiftDown less (i + 1) first (i + 2) (lswap l first (first + (i + 1))) 0) i

def pdqHeapSort (less : α → α → Bool) (l : List α) (a b : Nat) : List α :=
  let first := a
  let hi := b - a
  let l := pdqHeapBuild less hi first l ((hi - 1) / 2)
  if hi = 0 then l else pdqHeapPop less first l (hi - 1)

/-- `xorshift.Next` on a `uint64` state, with `% 2^64` making the
64-bit wraparound explicit. -/
def xsNext (r : Nat) : Nat :=
  let r := (r ^^^ (r <<< 13)) % 18446744073709551616
  let r := (r ^^^ (r >>> 7)) % 18446744073709551616
  (r ^^^ (r <<< 17)) % 18446744073709551616

/-- `bits.Len` (number of bits of `n`), fuelled halving. -/
def bitsLenF : Nat → Nat → Nat
  | 0, _ => 0
  | f + 1, n => if n = 0 then 0 else bitsLenF f (n / 2) + 1

def bitsLen (n : Nat) : Nat := bitsLenF (n + 1) n

def nextPowerOfTwo (n : Nat) : Nat := 1 <<< bitsLen n

/-- `breakPatterns`: scatter three elements around the middle using the
xorshift generator seeded with the range length. -/
def pdqBreakPatterns (l : List α) (a b : Nat) : List α :=
  let length := b - a
  if length ≥ 8 then
    let rand0 := length % 18446744073709551616
    let modulus := nextPowerOfTwo length
    let idx := a + (length / 4) * 2 - 1
    let r1 := xsNext rand0
    let o1 := let o := r1 &&& (modulus - 1); if o ≥ length then o - length else o
    let l := lswap l (idx - 1) (a + o1)
    let r2 := xsNext r1
    let o2 := let o := r2 &&& (modulus - 1); if o ≥ length then o - length else o
    let l := lswap l idx (a + o2)
    let r3 := xsNext r2
    let o3 := let o := r3 &&& (modulus - 1); if o ≥ length then o - length else o
    lswap l (idx + 1) (a + o3)
  else l

inductive PdqHint where
  | increasing
  | decreasing
  | unknown
deriving DecidableEq

/-- `order2`: index pair ordered by the data, counting swaps. -/
def pdqOrder2 (less : α → α → Bool) (l : List α) (a b swaps : Nat) :
    Nat × Nat × Nat :=
  if lessAt less l b a then (b, a, swaps + 1) else (a, b, swaps)

/-- `median` of the elements at three indices. -/
def pdqMedian (less : α → α → Bool) (l : List α) (a b c swaps : Nat) : Nat × Nat :=
  match pdqOrder2 less l a b swaps with
  | (a1, b1, s1) =>
    match pdqOrder2 less l b1 c s1 with
    | (b2, _, s2) =>
      match pdqOrder2 less l a1 b2 s2 with
      | (_, b3, s3) => (b3, s3)

/-- `medianAdjacent`. -/
def pdqMedianAdjacent (less : α → α → Bool) (l : List α) (a swaps : Nat) : Nat × Nat :=
  pdqMedian less l (a - 1) a (a + 1) swaps

/-- `choosePivot`: median of 1, 3 or 9 elements depending on the range
length; the swap count yields the sortedness hint. -/
def pdqChoosePivot (less : α → α → Bool) (l : List α) (a b : Nat) : Nat × PdqHint :=
  let ln := b - a
  let i := a + ln / 4 * 1
  let j := a + ln / 4 * 2
  let k := a + ln / 4 * 3
  if ln ≥ 8 then
    let r :=
      if ln ≥ 50 then
        match pdqMedianAdjacent less l i 0 with
        | (i1, s1) =>
          match pdqMedianAdjacent less l j s1 with
          | (j1, s2) =>
            match pdqMedianAdjacent less l k s2 with
            | (k1, s3) => (i1, j1, k1, s3)
      else (i, j, k, 0)
    match r with
    | (i2, j2, k2, s4) =>
      match pdqMedian less l i2 j2 k2 s4 with
      | (m, s5) =>
        if s5 = 0 then (m, PdqHint.increasing)
        else if s5 = 12 then (m, PdqHint.decreasing)
        else (m, PdqHint.unknown)
  else
    (j, PdqHint.increasing)

/-- `reverseRange`. -/
def pdqReverseLoop : Nat → List α → Nat → Nat → List α
  | 0, l, _, _ => l
  | f + 1, l, i, j =>
    if i < j then pdqReverseLoop f (lswap l i j) (i + 1) (j - 1) else l

def pdqReverseRange (l : List α) (a b : Nat) : List α :=
  pdqReverseLoop b l a (b - 1)

/-- `partialInsertionSort` scan: `for i < b && !data.Less(i, i-1)`. -/
def pdqPartialScan (less : α → α → Bool) (b : Nat) : Nat → List α → Nat → Nat
  | 0, _, i => i
  | f + 1, l, i =>
    if i < b ∧ !lessAt less l i (i - 1) then pdqPartialScan less b f l (i + 1) else i

/-- `partialInsertionSort` left shift:
`for k := i-1; k >= 1 && data.Less(k, k-1); k--`. -/
def pdqShiftLeft (less : α → α → Bool) : List α → Nat → List α
  | l, 0 => l
  | l, k + 1 =>
    if lessAt less l (k + 1) k then pdqShiftLeft less (lswap l (k + 1) k) k
    else l

/-- `partialInsertionSort` right shift:
`for k := i+1; k < b && data.Less(k, k-1); k++`. -/
def pdqShiftRight (less : α → α → Bool) (b : Nat) : Nat → List α → Nat → List α
  | 0, l, _ => l
  | f + 1, l, k =>
    if k < b ∧ lessAt less l k (k - 1) then
      pdqShiftRight less b f (lswap l k (k - 1)) (k + 1)
    else l

/-- `partialInsertionSort`: up to 5 adjacent inversions repaired; `true`
means the range ended up sorted. -/
def pdqPartialLoop (less : α → α → Bool) (a b : Nat) (l : List α) (i : Nat) :
    Nat → List α × Bool
  | 0 => (l, false)
  | steps + 1 =>
    let i := pdqPartialScan less b (b + 1) l i
    if i = b then (l, true)
    else if b - a < 50 then (l, false)
    else
      let l := lswap l i (i - 1)
      let l := if i - a ≥ 2 then pdqShiftLeft less l (i - 1) else l
      let l := if b - i ≥ 2 then pdqShiftRight less b (b + 1) l (i + 1) else l
      pdqPartialLoop less a b l i steps

def pdqPartialInsertionSort (less : α → α → Bool) (l : List α) (a b : Nat) :
    List α × Bool :=
  pdqPartialLoop less a b l (a + 1) 5

/-- `partition` scan of `i`: `for i <= j && data.Less(i, a)` (fuelled;
`j + 2` at the call sites). -/
def pdqScanI (less : α → α → Bool) (a j : Nat) : Nat → List α → Nat → Nat
  | 0, _, i => i
  | f + 1, l, i =>
    if i ≤ j ∧ lessAt less l i a then pdqScanI less a j f l (i + 1) else i

/-- `partition` scan of `j`: `for i <= j && !data.Less(j, a)`.  The scan
decrements `j` at most `j + 1` times (the guard `i <= j` with `i ≥ a+1`
stops it), which is the fuel supplied at each call site. -/
def pdqScanJ (less : α → α → Bool) (a i : Nat) : Nat → List α → Nat → Nat
  | 0, _, j => j
  | f + 1, l, j =>
    if i ≤ j ∧ !lessAt less l j a then pdqScanJ less a i f l (j - 1) else j

/-- Main `partition` loop (fuelled; each iteration narrows `[i, j]` by at
least two). -/
def pdqPartLoop (less : α → α → Bool) (a : Nat) :
    Nat → List α → Nat → Nat → List α × Nat
  | 0, l, _, j => (l, j)
  | fuel + 1, l, i, j =>
    match pdqScanI less a j (j + 2) l i with
    | i =>
      match pdqScanJ less a i (j + 1) l j with
      | j =>
        if i > j then (l, j)
        else pdqPartLoop less a fuel (lswap l i j) (i + 1) (j - 1)

/-- `partition(data, a, b, pivot)` returning the slice, the new pivot
position and `alreadyPartitioned`. -/
def pdqPartition (less : α → α → Bool) (l : List α) (a b pivot : Nat) :
    List α × Nat × Bool :=
  let l := lswap l a pivot
  match pdqScanI less a (b - 1) (b + 1) l (a + 1) with
  | i =>
    match pdqScanJ less a i b l (b - 1) with
    | j =>
      if i > j then (lswap l j a, j, true)
      else
        match pdqPartLoop less a (b - a + 1) (lswap l i j) (i + 1) (j - 1) with
        | (l, jj) => (lswap l jj a, jj, false)

/-- `partitionEqual` scan of `i`: `for i <= j && !data.Less(a, i)`
(fuelled like `pdqScanI`). -/
def pdqScanIEq (less : α → α → Bool) (a j : Nat) : Nat → List α → Nat → Nat
  | 0, _, i => i
  | f + 1, l, i =>
    if i ≤ j ∧ !lessAt less l a i then pdqScanIEq less a j f l (i + 1) else i

/-- `partitionEqual` scan of `j`: `for i <= j && data.Less(a, j)`
(fuelled like `pdqScanJ`). -/
def pdqScanJEq (less : α → α → Bool) (a i : Nat) : Nat → List α → Nat → Nat
  | 0, _, j => j
  | f + 1, l, j =>
    if i ≤ j ∧ lessAt less l a j then pdqScanJEq less a i f l (j - 1) else j

/-- Main `partitionEqual` loop (fuelled). -/
def pdqPartEqLoop (less : α → α → Bool) (a : Nat) :
    Nat → List α → Nat → Nat → List α × Nat
  | 0, l, i, _ => (l, i)
  | fuel + 1, l, i, j =>
    match pdqScanIEq less a j (j + 2) l i with
    | i =>
      match pdqScanJEq less a i (j + 1) l j with
      | j =>
        if i > j then (l, i)
        else pdqPartEqLoop less a fuel (lswap l i j) (i + 1) (j - 1)

/-- `partitionEqual`: moves elements equal to the pivot to the front,
returning the first index past them. -/
def pdqPartitionEqual (less : α → α → Bool) (l : List α) (a b pivot : Nat) :
    List α × Nat :=
  let l := lswap l a pivot
  pdqPartEqLoop less a (b - a + 1) l (a + 1) (b - 1)

/-- The main `pdqsort` recursion (fuelled; the range shrinks strictly at
every loop iteration and recursive call, so `b - a + 1` fuel at the top
is never exhausted).  A Go-level recursive call starts with fresh
balance flags, while a `continue` of the main loop keeps the flags the
current partitioning produced. -/
def pdqsortRec (less : α → α → Bool) :
    Nat → List α → Nat → Nat → Nat → Bool → Bool → List α
  | 0, l, _, _, _, _, _ => l
  | fuel + 1, l, a, b, limit, wasBalanced, wasPartitioned =>
    let length := b - a
    if length ≤ 12 then pdqInsertionSort less l a b
    else if limit = 0 then pdqHeapSort less l a b
    else
      match (if !wasBalanced then (pdqBreakPatterns l a b, limit - 1) else (l, limit)) with
      | (l, limit) =>
        match pdqChoosePivot less l a b with
        | (pivot0, hint0) =>
          match (if hint0 = PdqHint.decreasing then
              (pdqReverseRange l a b, (b - 1) - (pivot0 - a), PdqHint.increasing)
            else (l, pivot0, hint0)) with
          | (l, pivot, hint) =>
            match (if wasBalanced ∧ wasPartitioned ∧ hint = PdqHint.increasing then
                pdqPartialInsertionSort less l a b
              else (l, false)) with
            | (l, sortedEarly) =>
              if sortedEarly then l
              else if a > 0 ∧ !lessAt less l (a - 1) pivot then
                match pdqPartitionEqual less l a b pivot with
                | (l, mid) =>
                  pdqsortRec less fuel l mid b limit wasBalanced wasPartitioned
              else
                match pdqPartition less l a b pivot with
                | (l, mid, alreadyPartitioned) =>
                  let leftLen := mid - a
                  let rightLen := b - mid
                  let balanceThreshold := length / 8
                  let nowBalanced := min leftLen rightLen ≥ balanceThreshold
                  if leftLen < rightLen then
                    match pdqsortRec less fuel l a mid limit true true with
                    | l => pdqsortRec less fuel l (mid + 1) b limit nowBalanced alreadyPartitioned
                  else
                    match pdqsortRec less fuel l (mid + 1) b limit true true with
                    | l => pdqsortRec less fuel l a mid limit nowBalanced alreadyPartitioned

/-- Go source: `sort.Slice(x, less)` —
`pdqsort(lessSwap, 0, length, bits.Len(uint(length)))`. -/
def goSortSlice (less : α → α → Bool) (l : List α) : List α :=
  let n := l.length
  pdqsortRec less (n + 1) l 0 n (bitsLen n) true true

end Pdq

/-! ## The handler pipeline — `cmd/main.go` -/

/-- Layout `"2006-01-02"` used to parse `FILTER_DATE`. -/
def layDateOnly : List LTok :=
  [LTok.year4, LTok.lit ['-'], LTok.month2, LTok.lit ['-'], LTok.day2]

/-- `FILTER_DATE = "2025-01-01"` parsed by the handler
(`time.Parse("2006-01-02", FILTER_DATE)`), as an instant. -/
def filterDate2025 : Int := (goTimeParse layDateOnly (String.toList "2025-01-01")).getD 0

/-- The cutoff filter of `handler`:
`post.PublishedAt.After(filterTime) || post.PublishedAt.Equal(filterTime)`. -/
def cutoffFilter (filterTime : Int) (posts : List BlogPost) : List BlogPost :=
  posts.filter (fun p => decide (filterTime < p.publishedAt) || decide (p.publishedAt = filterTime))

/-- The title deduplication of `handler`: first-seen-wins on
`strings.TrimSpace(post.Title)` recorded in a `seenTitles` set. -/
def dedupByTitleAux (seen : List (List Char)) : List BlogPost → List BlogPost
  | [] => []
  | p :: ps =>
    let t := goTrimSpace p.title
    if seen.contains t then dedupByTitleAux seen ps
    else p :: dedupByTitleAux (t :: seen) ps

def dedupByTitle (posts : List BlogPost) : List BlogPost :=
  dedupByTitleAux [] posts

/-- The inline SVG data URI `generateHTML` substitutes for an empty
`Image` field. -/
def defaultImage : List Char := String.toList ("data:image/svg+xml;base64,PHN2ZyB3aWR0aD0iMzAwIiBoZWlnaHQ9IjIwMCIgdmlld0JveD0iMCAwIDMwMCAyMDAiIGZpbGw9Im5vbmUiIHhtbG5zPSJodHRwOi8vd3d3LnczLm9yZy8yMDAwL3N2ZyI+CjxyZWN0IHdpZHRoPSIzMDAiIGhlaWdodD0iMjAwIiBmaWxsPSIjRjNGNEY2Ii8+CjxwYXRoIGQ9Ik0xNTAgMTAwTDE3MCAxMjBMMTUwIDE0MEwxMzAgMTIwTDE1MCAxMDBaIiBmaWxsPSIjN0MzQTVGIi8+Cjx0ZXh0IHg9IjE1MCIgeT0iMTgwIiB0ZXh0LWFuY2hvcj0ibWlkZGxlIiBmaWxsPSIjN0MzQTVGIiBmb250LWZhbWlseT0iQXJpYWwiIGZvbnQtc2l6ZT0iMTQiPuiJvuacn+WbvueJhzwvdGV4dD4KPC9zdmc+")

/-- `generateHTML`'s default-image substitution (applied after the
sort). -/
def imageDefault (p : BlogPost) : BlogPost :=
  if p.image.isEmpty then { p with image := defaultImage } else p

/-- The comparator passed to `sort.Slice` in `generateHTML`:
`posts[i].PublishedAt.After(posts[j].PublishedAt)`. -/
def lessBlogPost (a b : BlogPost) : Bool :=
  decide (b.publishedAt < a.publishedAt)

/-- The post-list transformation of `generateHTML`: sort descending by
`PublishedAt` with `sort.Slice`, then substitute the default image. -/
def generateHTMLPosts (posts : List BlogPost) : List BlogPost :=
  (goSortSlice lessBlogPost posts).map imageDefault

/-- `handler`'s full list pipeline after crawling: cutoff filter, title
dedup, then `generateHTML`'s sort — the list handed to the template. -/
def handlerFinal (filterTime : Int) (allPosts : List BlogPost) : List BlogPost :=
  generateHTMLPosts (dedupByTitle (cutoffFilter filterTime allPosts))

/-- Outcome of a `handler` run. -/
inductive HandlerOutcome where
  | noPosts
  | report (posts : List BlogPost)
deriving Repr, DecidableEq

/-- Go source: `handler` — collect each crawler's result (an error
contributes nothing and is only logged), return early with the
"크롤링된 포스트가 없습니다" message when the combined list is empty,
otherwise filter/dedup/sort and render. -/
def handlerRun (results : List (Except (List Char) (List BlogPost))) (filterTime : Int) :
    HandlerOutcome :=
  let allPosts := results.foldl
    (fun acc r => match r with
      | Except.ok ps => acc ++ ps
      | Except.error _ => acc) []
  if allPosts.isEmpty then HandlerOutcome.noPosts
  else HandlerOutcome.report (handlerFinal filterTime allPosts)

/-! ## Toss crawler — `internal/crawlers/toss_crawler.go`
(the file also defining `TossCrawler` inside the crawlers package) -/

/-- The fields of the Toss API post object that the mapping to
`BlogPost` reads (`TossPost` in the source; `categories` holds the
`name` of each entry of the `categories` array). -/
structure TossPost where
  title : List Char
  key : List Char
  createdTime : List Char
  publishedTime : List Char
  categories : List (List Char)
  editorName : List Char
  shortDescription : List Char
  thumbnail : List Char
  coverImage : List Char
  image : List Char
deriving Repr, DecidableEq, Inhabited

/-- Layout `"2006-01-02T15:04:05+09:00"` — `+09:00` is not a reference
zone chunk, so it is literal text in a Go layout. -/
def layTossKst : List LTok :=
  [LTok.year4, LTok.lit ['-'], LTok.month2, LTok.lit ['-'], LTok.day2,
   LTok.lit ['T'], LTok.hourTok, LTok.lit [':'], LTok.min2, LTok.lit [':'],
   LTok.sec2, LTok.lit (String.toList "+09:00")]

/-- Layout `"2006-01-02 15:04:05"`. -/
def laySpaceTime : List LTok :=
  [LTok.year4, LTok.lit ['-'], LTok.month2, LTok.lit ['-'], LTok.day2,
   LTok.lit [' '], LTok.hourTok, LTok.lit [':'], LTok.min2, LTok.lit [':'],
   LTok.sec2]

/-- Layout `"2006년 1월 2일"`. -/
def layKorDate : List LTok :=
  [LTok.year4, LTok.lit (String.toList "년 "), LTok.month1,
   LTok.lit (String.toList "월 "), LTok.day1, LTok.lit (String.toList "일")]

/-- Layout `"January 2, 2006"`. -/
def layFullMonth : List LTok :=
  [LTok.monthFull, LTok.lit [' '], LTok.day1, LTok.lit (String.toList ", "), LTok.year4]

/-- Layout `"Jan 2, 2006"`. -/
def layShortMonth : List LTok :=
  [LTok.monthShort, LTok.lit [' '], LTok.day1, LTok.lit (String.toList ", "), LTok.year4]

/-- Layout `"2006-1-2"` used on the reassembled regex fallback date. -/
def layY1M1D1 : List LTok :=
  [LTok.year4, LTok.lit ['-'], LTok.month1, LTok.lit ['-'], LTok.day1]

/-- The regex fallback of `TossCrawler.parseDate`: four digits, a
separator (dash, slash or 년), one or two digits, a separator (dash,
slash or 월), one or two digits — three capture groups. -/
def patTossDate : List RTok :=
  [RTok.cap isDigitCh 4 4 true,
   RTok.cls (fun c => c = '-' || c = '/' || c = '년') 1 1 true,
   RTok.cap isDigitCh 1 2 true,
   RTok.cls (fun c => c = '-' || c = '/' || c = '월') 1 1 true,
   RTok.cap isDigitCh 1 2 true]

/-- Go source: `TossCrawler.parseDate` — eight layouts tried in order,
then the regex fallback reassembling `y-m-d` and parsing it with
`"2006-1-2"`; `none` models the error return (whose `time.Now()`
component is what the caller ends up with, made explicit at the call
site). -/
def tossParseDate (s : List Char) : Option Int :=
  match goTimeParseFirst
      [layRFC3339, layTossKst, layAtom2, laySpaceTime, layDateOnly,
       layKorDate, layFullMonth, layShortMonth] s with
  | some t => some t
  | none =>
    match findFirst patTossDate s with
    | some (_, y :: m :: d :: _, _) =>
      goTimeParse layY1M1D1 (y ++ ['-'] ++ m ++ ['-'] ++ d)
    | _ => none

/-- The body of the per-post loop in
`TossCrawler.extractFromJavaScript`: map one decoded API post to a
`BlogPost`.  `now` is `time.Now()`: Go's `parseDate` returns
`(time.Now(), err)` on failure and the caller drops `err`, so a failed
parse yields `now`. -/
def tossMapApiPost (now : Int) (p : TossPost) : BlogPost :=
  let publishedAt :=
    if p.publishedTime ≠ [] then (tossParseDate p.publishedTime).getD now
    else if p.createdTime ≠ [] then (tossParseDate p.createdTime).getD now
    else now
  let category :=
    (p.categories.find? (fun nm =>
      decide (nm = String.toList "개발") || decide (nm = String.toList "데이터/ML"))).getD
      (String.toList "개발")
  let imageURL :=
    if p.thumbnail ≠ [] then p.thumbnail
    else if p.coverImage ≠ [] then p.coverImage
    else if p.image ≠ [] then p.image
    else []
  { title := p.title,
    url := String.toList "https://toss.tech/article/" ++ p.key,
    author := p.editorName,
    publishedAt := publishedAt,
    summary := p.shortDescription,
    source := String.toList "토스",
    category := category,
    image := imageURL }

/-! ## Tech filter — `internal/filters/tech_filter.go` -/

/-- `NewTechFilter`'s keyword list, in source order (including the
repeated `리팩토링`). -/
def techKeywords : List String :=
  ["개발", "프로그래밍", "코딩", "소프트웨어", "엔지니어링",
   "프론트엔드", "백엔드", "풀스택", "데이터베이스", "API",
   "클라우드", "DevOps", "CI/CD", "테스트", "리팩토링",
   "아키텍처", "마이크로서비스", "모니터링", "로깅", "보안",
   "성능", "최적화", "스케일링", "컨테이너", "쿠버네티스",
   "머신러닝", "AI", "데이터", "분석", "알고리즘",
   "자료구조", "디자인패턴", "클린코드", "리팩토링", "TDD",
   "BDD", "DDD", "SOLID", "DRY", "KISS",
   "React", "Vue", "Angular", "Node.js", "Go",
   "Python", "Java", "JavaScript", "TypeScript", "Rust",
   "Kotlin", "Swift", "Docker", "AWS", "GCP", "Azure"]

/-- Go source: `TechFilter.isTechRelated` — three early-return loops
over the keywords (title, then category, then summary), each comparing
lowercased text with the lowercased keyword by `strings.Contains`. -/
def isTechRelated (post : BlogPost) : Bool :=
  techKeywords.any (fun kw => goContainsSub (goToLower post.title) (goToLower kw.toList)) ||
  techKeywords.any (fun kw => goContainsSub (goToLower post.category) (goToLower kw.toList)) ||
  techKeywords.any (fun kw => goContainsSub (goToLower post.summary) (goToLower kw.toList))

/-- Go source: `TechFilter.Filter` with `daysLimit = 365`.  The cutoff
is `time.Now().AddDate(0, 0, -365)`; under UTC (no DST) that is exactly
365 days of 86400 seconds before `now`.  A post is kept when it is not
before the cutoff and `isTechRelated` holds. -/
def techFilterFilter (now : Int) (posts : List BlogPost) : List BlogPost :=
  let cutoffDate := now - 365 * 86400 * 1000000000
  posts.filter (fun p => !(decide (p.publishedAt < cutoffDate)) && isTechRelated p)

/-! ## Spec-side categorizer and concrete instances -/

/-- The category groups in the order the spec lists them (AI, Data,
Search, Engineering, Startup-culture), each with its keyword set. -/
def specCategoryGroups : List (String × List String) :=
  [("AI", aiKeywords), ("데이터", dataKeywords), ("검색", searchKeywords),
   ("엔지니어링", engKeywords), ("IT스타트업", startupKeywords)]

/-- Modelled from the spec (§ category classification): test a fixed
ordered list of keyword groups case-insensitively against the title and
the summary; the first matching group wins; if none match, default to
the Engineering bucket.  Used only to be compared against the source's
`determineCategory`. -/
def specFirstMatch (title summary : List Char) :
    List (String × List String) → List Char
  | [] => String.toList "엔지니어링"
  | g :: gs =>
    if g.2.any (fun kw =>
        goContainsSub (goToLower title) (goToLower kw.toList) ||
        goContainsSub (goToLower summary) (goToLower kw.toList)) then
      g.1.toList
    else specFirstMatch title summary gs

def specCategorize (title summary : List Char) : List Char :=
  specFirstMatch title summary specCategoryGroups

/-- `true` iff every adjacent pair of the list is ordered by
`publishedAt` descending (the sort invariant of the rendered list). -/
def sortedByPublishedDesc : List BlogPost → Bool
  | p :: q :: rest =>
    decide (q.publishedAt ≤ p.publishedAt) && sortedByPublishedDesc (q :: rest)
  | _ => true

/-- A minimal post used by the concrete pipeline runs below. -/
def mkSimplePost (t : String) (k : Int) : BlogPost :=
  { title := t.toList, url := String.toList "u" ++ t.toList, author := [],
    publishedAt := k, summary := [], source := [], category := [], image := ['x'] }

/-- Instants used by the concrete runs (nanoseconds since the epoch):
2024-06-01, 2025-03-01, 2025-06-01 and 2025-07-01, all at 00:00:00 UTC. -/
def tsJun2024 : Int := 1717200000000000000
def tsMar2025 : Int := 1740787200000000000
def tsJun2025 : Int := 1748736000000000000
def tsJul2025 : Int := 1751328000000000000

/-- A feed entry carrying only a `published` date: no title and no link. -/
def entryNoTitleNoLink : List Char :=
  String.toList "<entry><published>2025-06-01T00:00:00Z</published></entry>"

/-- A feed entry whose `published` does not parse but whose `updated`
does. -/
def entryBadPublished : List Char :=
  String.toList "<published>not-a-date</published><updated>2025-03-01T00:00:00Z</updated>"

/-- A feed entry with no `published` and a parsable `updated`
(Scenario C). -/
def entryOnlyUpdated : List Char :=
  String.toList "<updated>2025-03-01T00:00:00Z</updated>"

/-- Scenario A's two posts: one dated 2024-06-01, one dated
2025-06-01. -/
def postOld : BlogPost := mkSimplePost "old" tsJun2024
def postNew : BlogPost := mkSimplePost "new" tsJun2025

/-- Scenario B's two posts: the same title from two adapters, different
URLs. -/
def postIntroA : BlogPost :=
  { title := String.toList "Intro to X", url := String.toList "https://a/x",
    author := [], publishedAt := tsJun2025, summary := [], source := [],
    category := [], image := ['x'] }
def postIntroB : BlogPost :=
  { postIntroA with url := String.toList "https://b/x", publishedAt := tsMar2025 }

/-- Thirteen posts, all past the cutoff, with `p0` and `p1` sharing one
`publishedAt` and the rest distinct — the input exhibiting the
instability of `sort.Slice`. -/
def c5posts : List BlogPost :=
  [mkSimplePost "p0" (tsMar2025 + 7), mkSimplePost "p1" (tsMar2025 + 7),
   mkSimplePost "p2" (tsMar2025 + 1), mkSimplePost "p3" (tsMar2025 + 2),
   mkSimplePost "p4" (tsMar2025 + 3), mkSimplePost "p5" (tsMar2025 + 4),
   mkSimplePost "p6" (tsMar2025 + 5), mkSimplePost "p7" (tsMar2025 + 6),
   mkSimplePost "p8" (tsMar2025 + 8), mkSimplePost "p9" (tsMar2025 + 9),
   mkSimplePost "p10" (tsMar2025 + 10), mkSimplePost "p11" (tsMar2025 + 11),
   mkSimplePost "p12" (tsMar2025 + 12)]

/-- A Toss API post whose `shortDescription` is 250 characters long. -/
def tossLongPost : TossPost :=
  { title := String.toList "t", key := String.toList "k",
    createdTime := [], publishedTime := String.toList "2025-06-01",
    categories := [], editorName := [],
    shortDescription := List.replicate 250 'a',
    thumbnail := [], coverImage := [], image := [] }

/-! ## Permutation infrastructure

Every mutation either sort performs goes through `lswap`, so each loop
returns a permutation of its input slice; these lemmas chain that fact
through the whole of pdqsort, which is what the membership-preservation
arguments about the final pipeline rest on. -/

theorem lswap_perm {α : Type} [DecidableEq α] (l : List α) (i j : Nat) :
    (lswap l i j).Perm l := by
  unfold lswap
  rcases h1 : l.get? i with _ | vi
  · exact List.Perm.refl l
  · rcases h2 : l.get? j with _ | vj
    · exact List.Perm.refl l
    · rcases List.get?_eq_some.mp h1 with ⟨hi, hvi⟩
      rcases List.get?_eq_some.mp h2 with ⟨hj, hvj⟩
      subst hvi
      subst hvj
      rw [List.perm_iff_count]
      intro x
      have hj' : j < (l.set i (l.get ⟨j, hj⟩)).length := by simpa using hj
      rw [List.count_set _ _ _ _ hj', List.count_set _ _ _ _ hi]
      have hset : (l.set i (l.get ⟨j, hj⟩))[j] = l.get ⟨j, hj⟩ := by
        rw [List.getElem_set]
        split <;> simp [List.get_eq_getElem]
      rw [hset]
      have hgi : l.get ⟨i, hi⟩ = l[i] := rfl
      have hgj : l.get ⟨j, hj⟩ = l[j] := rfl
      rw [hgi, hgj]
      have hmi : 0 < l.count l[i] := List.count_pos_iff.mpr (List.getElem_mem hi)
      have hmj : 0 < l.count l[j] := List.count_pos_iff.mpr (List.getElem_mem hj)
      by_cases hx1 : l[i] = x <;> by_cases hx2 : l[j] = x <;>
        (try rw [hx1] at hmi) <;> (try rw [hx2] at hmj) <;>
        simp only [hx1, hx2, beq_self_eq_true, beq_iff_eq, if_true, if_false, reduceIte] <;>
        omega

section PermChain

variable {α : Type} [Inhabited α] [DecidableEq α] (less : α → α → Bool)

theorem pdqInsertInner_perm (a : Nat) :
    ∀ (j : Nat) (l : List α), (pdqInsertInner less a l j).Perm l := by
  intro j
  induction j with
  | zero => intro l; simp [pdqInsertInner]
  | succ j ih =>
    intro l
    rw [pdqInsertInner]
    split
    · exact (ih _).trans (lswap_perm l (j + 1) j)
    · exact List.Perm.refl l

theorem pdqInsertOuter_perm (a b : Nat) :
    ∀ (f : Nat) (l : List α) (i : Nat), (pdqInsertOuter less a b f l i).Perm l := by
  intro f
  induction f with
  | zero => intro l i; simp [pdqInsertOuter]
  | succ f ih =>
    intro l i
    rw [pdqInsertOuter]
    split
    · exact (ih _ _).trans (pdqInsertInner_perm less a i l)
    · exact List.Perm.refl l

theorem pdqInsertionSort_perm (l : List α) (a b : Nat) :
    (pdqInsertionSort less l a b).Perm l :=
  pdqInsertOuter_perm less a b (b + 1) l (a + 1)

theorem pdqSiftDown_perm (hi first : Nat) :
    ∀ (f : Nat) (l : List α) (root : Nat), (pdqSiftDown less hi first f l root).Perm l := by
  intro f
  induction f with
  | zero => intro l root; simp [pdqSiftDown]
  | succ f ih =>
    intro l root
    rw [pdqSiftDown]
    dsimp only
    split
    · split <;> split <;>
        first
          | exact List.Perm.refl l
          | exact (ih _ _).trans (lswap_perm l _ _)
    · exact List.Perm.refl l

theorem pdqHeapBuild_perm (hi first : Nat) :
    ∀ (i : Nat) (l : List α), (pdqHeapBuild less hi first l i).Perm l := by
  intro i
  induction i with
  | zero => intro l; exact pdqSiftDown_perm less hi first (hi + 1) l 0
  | succ i ih =>
    intro l
    exact (ih _).trans (pdqSiftDown_perm less hi first (hi + 1) l (i + 1))

theorem pdqHeapPop_perm (first : Nat) :
    ∀ (i : Nat) (l : List α), (pdqHeapPop less first l i).Perm l := by
  intro i
  induction i with
  | zero =>
    intro l
    exact (pdqSiftDown_perm less 0 first 1 _ 0).trans (lswap_perm l first first)
  | succ i ih =>
    intro l
    exact ((ih _).trans (pdqSiftDown_perm less (i + 1) first (i + 2) _ 0)).trans
      (lswap_perm l first (first + (i + 1)))

theorem pdqHeapSort_perm (l : List α) (a b : Nat) :
    (pdqHeapSort less l a b).Perm l := by
  unfold pdqHeapSort
  dsimp only
  split
  · exact pdqHeapBuild_perm less _ _ _ l
  · exact (pdqHeapPop_perm less _ _ _).trans (pdqHeapBuild_perm less _ _ _ l)

theorem pdqBreakPatterns_perm (l : List α) (a b : Nat) :
    (pdqBreakPatterns l a b).Perm l := by
  unfold pdqBreakPatterns
  dsimp only
  split
  · exact (lswap_perm _ _ _).trans ((lswap_perm _ _ _).trans (lswap_perm _ _ _))
  · exact List.Perm.refl l

theorem pdqReverseLoop_perm :
    ∀ (f : Nat) (l : List α) (i j : Nat), (pdqReverseLoop f l i j).Perm l := by
  intro f
  induction f with
  | zero => intro l i j; simp [pdqReverseLoop]
  | succ f ih =>
    intro l i j
    rw [pdqReverseLoop]
    split
    · exact (ih _ _ _).trans (lswap_perm l i j)
    · exact List.Perm.refl l

theorem pdqReverseRange_perm (l : List α) (a b : Nat) :
    (pdqReverseRange l a b).Perm l :=
  pdqReverseLoop_perm b l a (b - 1)

theorem pdqShiftLeft_perm :
    ∀ (k : Nat) (l : List α), (pdqShiftLeft less l k).Perm l := by
  intro k
  induction k with
  | zero => intro l; simp [pdqShiftLeft]
  | succ k ih =>
    intro l
    rw [pdqShiftLeft]
    split
    · exact (ih _).trans (lswap_perm l (k + 1) k)
    · exact List.Perm.refl l

theorem pdqShiftRight_perm (b : Nat) :
    ∀ (f : Nat) (l : List α) (k : Nat), (pdqShiftRight less b f l k).Perm l := by
  intro f
  induction f with
  | zero => intro l k; simp [pdqShiftRight]
  | succ f ih =>
    intro l k
    rw [pdqShiftRight]
    split
    · exact (ih _ _).trans (lswap_perm l k (k - 1))
    · exact List.Perm.refl l

theorem pdqPartialLoop_perm (a b : Nat) :
    ∀ (steps : Nat) (l : List α) (i : Nat), (pdqPartialLoop less a b l i steps).1.Perm l := by
  intro steps
  induction steps with
  | zero => intro l i; simp [pdqPartialLoop]
  | succ steps ih =>
    intro l i
    rw [pdqPartialLoop]
    split
    · exact List.Perm.refl l
    · split
      · exact List.Perm.refl l
      · refine (ih _ _).trans ?_
        split <;> split <;>
          first
            | exact ((pdqShiftRight_perm less b _ _ _).trans
                (pdqShiftLeft_perm less _ _)).trans (lswap_perm _ _ _)
            | exact (pdqShiftRight_perm less b _ _ _).trans (lswap_perm _ _ _)
            | exact (pdqShiftLeft_perm less _ _).trans (lswap_perm _ _ _)
            | exact lswap_perm _ _ _

theorem pdqPartialInsertionSort_perm (l : List α) (a b : Nat) :
    (pdqPartialInsertionSort less l a b).1.Perm l :=
  pdqPartialLoop_perm less a b 5 l (a + 1)

theorem pdqPartLoop_perm (a : Nat) :
    ∀ (f : Nat) (l : List α) (i j : Nat), (pdqPartLoop less a f l i j).1.Perm l := by
  intro f
  induction f with
  | zero => intro l i j; simp [pdqPartLoop]
  | succ f ih =>
    intro l i j
    rw [pdqPartLoop]
    split
    · exact List.Perm.refl l
    · exact (ih _ _ _).trans (lswap_perm l _ _)

theorem pdqPartition_perm (l : List α) (a b pivot : Nat) :
    (pdqPartition less l a b pivot).1.Perm l := by
  have lswapRel : ∀ (x : List α) (i2 j2 : Nat) (base : List α),
      x.Perm base → (lswap x i2 j2).Perm base :=
    fun _ _ _ _ h => (lswap_perm _ _ _).trans h
  have partLoopRel : ∀ (a2 f : Nat) (x : List α) (i2 j2 : Nat) (base : List α),
      x.Perm base → (pdqPartLoop less a2 f x i2 j2).1.Perm base :=
    fun _ _ _ _ _ _ h => (pdqPartLoop_perm less _ _ _ _ _).trans h
  unfold pdqPartition
  dsimp only
  split
  · exact lswapRel _ _ _ _ (lswapRel _ _ _ _ (List.Perm.refl l))
  · exact lswapRel _ _ _ _ (partLoopRel _ _ _ _ _ _
      (lswapRel _ _ _ _ (lswapRel _ _ _ _ (List.Perm.refl l))))

theorem pdqPartEqLoop_perm (a : Nat) :
    ∀ (f : Nat) (l : List α) (i j : Nat), (pdqPartEqLoop less a f l i j).1.Perm l := by
  intro f
  induction f with
  | zero => intro l i j; simp [pdqPartEqLoop]
  | succ f ih =>
    intro l i j
    rw [pdqPartEqLoop]
    split
    · exact List.Perm.refl l
    · exact (ih _ _ _).trans (lswap_perm l _ _)

theorem pdqPartitionEqual_perm (l : List α) (a b pivot : Nat) :
    (pdqPartitionEqual less l a b pivot).1.Perm l := by
  unfold pdqPartitionEqual
  exact (pdqPartEqLoop_perm less a _ _ _ _).trans (lswap_perm l a pivot)

theorem pdqsortRec_perm :
    ∀ (fuel : Nat) (l : List α) (a b limit : Nat) (wb wp : Bool),
      (pdqsortRec less fuel l a b limit wb wp).Perm l := by
  intro fuel
  induction fuel with
  | zero => intro l a b limit wb wp; simp [pdqsortRec]
  | succ fuel ih =>
    intro l a b limit wb wp
    have ihRel : ∀ (x : List α) (a2 b2 lim2 : Nat) (wb2 wp2 : Bool) (base : List α),
        x.Perm base → (pdqsortRec less fuel x a2 b2 lim2 wb2 wp2).Perm base :=
      fun x _ _ _ _ _ _ h => (ih x _ _ _ _ _).trans h
    have breakRel : ∀ (x : List α) (a2 b2 : Nat) (base : List α),
        x.Perm base → (pdqBreakPatterns x a2 b2).Perm base :=
      fun _ _ _ _ h => (pdqBreakPatterns_perm _ _ _).trans h
    have revRel : ∀ (x : List α) (a2 b2 : Nat) (base : List α),
        x.Perm base → (pdqReverseRange x a2 b2).Perm base :=
      fun _ _ _ _ h => (pdqReverseRange_perm _ _ _).trans h
    have partialRel : ∀ (x : List α) (a2 b2 : Nat) (base : List α),
        x.Perm base → (pdqPartialInsertionSort less x a2 b2).1.Perm base :=
      fun _ _ _ _ h => (pdqPartialInsertionSort_perm less _ _ _).trans h
    have partRel : ∀ (x : List α) (a2 b2 p2 : Nat) (base : List α),
        x.Perm base → (pdqPartition less x a2 b2 p2).1.Perm base :=
      fun _ _ _ _ _ h => (pdqPartition_perm less _ _ _ _).trans h
    have partEqRel : ∀ (x : List α) (a2 b2 p2 : Nat) (base : List α),
        x.Perm base → (pdqPartitionEqual less x a2 b2 p2).1.Perm base :=
      fun _ _ _ _ _ h => (pdqPartitionEqual_perm less _ _ _ _).trans h
    rw [pdqsortRec]
    split
    · exact pdqInsertionSort_perm less l a b
    · split
      · exact pdqHeapSort_perm less l a b
      · dsimp only
        repeat' split <;> (try dsimp only)
        all_goals
          repeat
            first
              | exact List.Perm.refl _
              | apply ihRel
              | apply partRel
              | apply partEqRel
              | apply partialRel
              | apply revRel
              | apply breakRel

theorem goSortSlice_perm (l : List α) : (goSortSlice less l).Perm l := by
  unfold goSortSlice
  exact pdqsortRec_perm less (l.length + 1) l 0 l.length (bitsLen l.length) true true

end PermChain

/-! ## Deduplication and pipeline lemmas -/

/-- The deduplicated list is a sublist of its input (order preserved,
nothing added). -/
theorem dedupByTitleAux_sublist (ps : List BlogPost) :
    ∀ seen, (dedupByTitleAux seen ps).Sublist ps := by
  induction ps with
  | nil => intro seen; simp [dedupByTitleAux]
  | cons p ps ih =>
    intro seen
    rw [dedupByTitleAux]
    split
    · exact (ih seen).cons p
    · exact (ih _).cons₂ p

/-- Every post surviving `dedupByTitleAux` has a trimmed title outside
`seen`, and the output titles are pairwise distinct. -/
theorem dedupByTitleAux_spec (ps : List BlogPost) :
    ∀ seen,
      (∀ p ∈ dedupByTitleAux seen ps, ¬ seen.contains (goTrimSpace p.title)) ∧
      (dedupByTitleAux seen ps).Pairwise
        (fun p q => goTrimSpace p.title ≠ goTrimSpace q.title) := by
  induction ps with
  | nil => intro seen; simp [dedupByTitleAux]
  | cons p ps ih =>
    intro seen
    rw [dedupByTitleAux]
    split
    · exact ih seen
    · constructor
      · intro q hq
        rcases List.mem_cons.mp hq with rfl | hq2
        · assumption
        · have h2 := (ih (goTrimSpace p.title :: seen)).1 q hq2
          simp only [List.contains_cons, Bool.or_eq_true, not_or] at h2
          exact fun hc => h2.2 hc
      · refine List.Pairwise.cons ?_ (ih _).2
        intro q hq heq
        have h2 := (ih (goTrimSpace p.title :: seen)).1 q hq
        simp only [List.contains_cons, Bool.or_eq_true, not_or, beq_iff_eq] at h2
        exact h2.1 heq.symm

/-- First-seen-wins: every survivor of the dedup is exactly the first
element of the input bearing its trimmed title. -/
theorem dedupByTitleAux_find (ps : List BlogPost) :
    ∀ seen q, q ∈ dedupByTitleAux seen ps →
      ¬ seen.contains (goTrimSpace q.title) ∧
      ps.find? (fun x => goTrimSpace x.title == goTrimSpace q.title) = some q := by
  induction ps with
  | nil => intro seen q hq; simp [dedupByTitleAux] at hq
  | cons p ps ih =>
    intro seen q hq
    rw [dedupByTitleAux] at hq
    rw [List.find?]
    by_cases hpq : goTrimSpace p.title = goTrimSpace q.title
    · split at hq
      · rcases ih seen q hq with ⟨hnc, _⟩
        rw [hpq] at *
        simp_all
      · rcases List.mem_cons.mp hq with rfl | hq2
        · simp_all
        · exfalso
          rcases ih _ q hq2 with ⟨hnc, _⟩
          exact hnc (by simp [List.contains_cons, hpq])
    · have hbeq : (goTrimSpace p.title == goTrimSpace q.title) = false := by
        simpa using hpq
      rw [hbeq]
      split at hq
      · exact ih seen q hq
      · rcases List.mem_cons.mp hq with rfl | hq2
        · simp_all
        · rcases ih _ q hq2 with ⟨hnc, hfind⟩
          simp only [List.contains_cons, Bool.or_eq_true, not_or] at hnc
          exact ⟨hnc.2, hfind⟩

/-- Every trimmed title present in the input (and not yet seen) is
represented in the dedup output. -/
theorem dedupByTitleAux_covers (ps : List BlogPost) :
    ∀ seen p, p ∈ ps → ¬ seen.contains (goTrimSpace p.title) →
      ∃ q ∈ dedupByTitleAux seen ps, goTrimSpace q.title = goTrimSpace p.title := by
  induction ps with
  | nil => intro seen p hp; simp at hp
  | cons p0 ps ih =>
    intro seen p hp hnc
    rw [dedupByTitleAux]
    by_cases hpq : goTrimSpace p0.title = goTrimSpace p.title
    · split
      · rcases List.mem_cons.mp hp with rfl | hp2
        · simp_all
        · rw [hpq] at *
          simp_all
      · exact ⟨p0, List.mem_cons_self _ _, hpq⟩
    · rcases List.mem_cons.mp hp with rfl | hp2
      · simp_all
      · split
        · exact ih seen p hp2 hnc
        · rcases ih (goTrimSpace p0.title :: seen) p hp2
            (by
              simp only [List.contains_cons, Bool.or_eq_true, not_or, beq_iff_eq]
              exact ⟨fun h => hpq h.symm, by simpa using hnc⟩) with ⟨q, hq, hqt⟩
          exact ⟨q, List.mem_cons_of_mem _ hq, hqt⟩

/-- `generateHTML`'s default-image substitution changes only the image
field. -/
theorem imageDefault_fields (p : BlogPost) :
    (imageDefault p).title = p.title ∧ (imageDefault p).url = p.url ∧
    (imageDefault p).publishedAt = p.publishedAt := by
  unfold imageDefault
  split <;> exact ⟨rfl, rfl, rfl⟩

/-- Every post handed to the renderer is the image-defaulted copy of a
post that survived the cutoff filter and the dedup. -/
theorem handlerFinal_mem (cutoff : Int) (posts : List BlogPost) (q : BlogPost)
    (h : q ∈ handlerFinal cutoff posts) :
    ∃ r ∈ dedupByTitle (cutoffFilter cutoff posts), q = imageDefault r := by
  unfold handlerFinal generateHTMLPosts at h
  rcases List.mem_map.mp h with ⟨r, hr, rfl⟩
  exact ⟨r, (goSortSlice_perm lessBlogPost _).mem_iff.mp hr, rfl⟩

/-- Conversely, every dedup survivor reaches the renderer (modulo the
image default). -/
theorem handlerFinal_mem_of (cutoff : Int) (posts : List BlogPost) (r : BlogPost)
    (h : r ∈ dedupByTitle (cutoffFilter cutoff posts)) :
    imageDefault r ∈ handlerFinal cutoff posts := by
  unfold handlerFinal generateHTMLPosts
  exact List.mem_map_of_mem imageDefault
    ((goSortSlice_perm lessBlogPost _).mem_iff.mpr h)

/-- Shifting the accumulator out of the `utf8Len` fold. -/
theorem utf8Len_foldl_init (s : List Char) :
    ∀ n : Nat, s.foldl (fun a c => a + c.utf8Size) n =
      n + s.foldl (fun a c => a + c.utf8Size) 0 := by
  induction s with
  | nil => intro n; simp
  | cons c cs ih =>
    intro n
    simp only [List.foldl_cons]
    rw [ih (n + c.utf8Size), ih (0 + c.utf8Size)]
    omega

theorem utf8Len_cons (c : Char) (cs : List Char) :
    utf8Len (c :: cs) = c.utf8Size + utf8Len cs := by
  unfold utf8Len
  simp only [List.foldl_cons]
  rw [utf8Len_foldl_init cs (0 + c.utf8Size)]
  omega

theorem utf8Len_append (xs ys : List Char) :
    utf8Len (xs ++ ys) = utf8Len xs + utf8Len ys := by
  induction xs with
  | nil => simp [utf8Len]
  | cons c cs ih => rw [List.cons_append, utf8Len_cons, utf8Len_cons, ih]; omega

/-- The byte-truncation keeps at most `n` bytes. -/
theorem utf8Len_goTruncBytes (s : List Char) :
    ∀ n, utf8Len (goTruncBytes n s) ≤ n := by
  induction s with
  | nil => intro n; simp [goTruncBytes, utf8Len]
  | cons c cs ih =>
    intro n
    rw [goTruncBytes]
    split
    · rw [utf8Len_cons]
      have := ih (n - c.utf8Size)
      omega
    · simp [utf8Len]

/-! ## The claims -/

set_option maxRecDepth 1000000

/-- C1 (counterexample).  The claim says every post in the final output
handed to the renderer has a non-empty title and a non-empty url.  The
RSS path builds a post with empty title and url from a feed entry that
lacks `<title>` and `<link>`, and no pipeline stage (cutoff filter,
title dedup, sort, image default) removes it: at this concrete run the
renderer receives a post with `title = ""` and `url = ""`. -/
theorem c1_empty_title_reaches_renderer :
    ∃ p ∈ handlerFinal filterDate2025 (crawlRSS tsJul2025 entryNoTitleNoLink),
      p.title = [] ∧ p.url = [] :=
  ⟨imageDefault (mkRssPost tsJul2025
      (String.toList "<published>2025-06-01T00:00:00Z</published>")),
    by decide, by decide, by decide⟩

/-- C1 (amended).  The aggregation pipeline itself never introduces
empty fields: when every adapter-produced post has a non-empty title and
url, so does every post handed to the renderer.  (The unconditional
claim fails because adapters can emit empty-titled posts, as the
counterexample shows.) -/
theorem c1_pipeline_preserves_nonempty (cutoff : Int) (posts : List BlogPost)
    (h : ∀ p ∈ posts, p.title ≠ [] ∧ p.url ≠ []) :
    ∀ q ∈ handlerFinal cutoff posts, q.title ≠ [] ∧ q.url ≠ [] := by
  intro q hq
  rcases handlerFinal_mem cutoff posts q hq with ⟨r, hr, rfl⟩
  have hrf : r ∈ cutoffFilter cutoff posts := (dedupByTitleAux_sublist _ _).subset hr
  unfold cutoffFilter at hrf
  have hrp : r ∈ posts := List.mem_of_mem_filter hrf
  rcases imageDefault_fields r with ⟨ht, hu, _⟩
  rw [ht, hu]
  exact h r hrp

/-- C1 (witness for the amended theorem), at a one-post run. -/
theorem c1_witness :
    (∀ p ∈ [postNew], p.title ≠ [] ∧ p.url ≠ []) ∧
    (∀ q ∈ handlerFinal filterDate2025 [postNew], q.title ≠ [] ∧ q.url ≠ []) :=
  ⟨by decide, c1_pipeline_preserves_nonempty filterDate2025 [postNew] (by decide)⟩

/-- C2.  When every fetch fails, `handler` does return the explicit
"no posts" outcome — but `NaverCrawler.Crawl` itself panics instead of
returning an error or an empty list: with all five RSS fetches failing
it reaches `sortByDate` with an empty slice, whose logging statement
indexes `posts[0]` out of range.  The `none` value is that panic. -/
theorem c2_empty_crawl_panics :
    naverCrawl tsJul2025 [none, none, none, none, none] (fun _ => none) = none ∧
    handlerRun
      [Except.error (String.toList "toss"), Except.error (String.toList "daangn"),
       Except.error (String.toList "naver"), Except.error (String.toList "danmin")]
      filterDate2025 = HandlerOutcome.noPosts := by
  exact ⟨by decide, by decide⟩

/-- C3.  Every post in the final output is dated at or after the
configured cutoff instant: posts strictly before it are dropped and a
post exactly at the cutoff is kept (the filter keeps
`After(cutoff) || Equal(cutoff)`). -/
theorem c3_cutoff_invariant (cutoff : Int) (posts : List BlogPost) :
    ∀ p ∈ handlerFinal cutoff posts, cutoff ≤ p.publishedAt := by
  intro p hp
  rcases handlerFinal_mem _ _ _ hp with ⟨r, hr, rfl⟩
  have hrf : r ∈ cutoffFilter cutoff posts := (dedupByTitleAux_sublist _ _).subset hr
  unfold cutoffFilter at hrf
  have hcond := (List.mem_filter.mp hrf).2
  rcases imageDefault_fields r with ⟨_, _, hpa⟩
  rw [hpa]
  simp only [Bool.or_eq_true, decide_eq_true_eq] at hcond
  rcases hcond with hlt | heq
  · omega
  · omega

/-- C3 (witness): Scenario A — cutoff 2025-01-01, posts dated
2024-06-01 and 2025-06-01; only the second survives, and it satisfies
the invariant. -/
theorem c3_witness :
    handlerFinal filterDate2025 [postOld, postNew] = [imageDefault postNew] ∧
    filterDate2025 ≤ (imageDefault postNew).publishedAt :=
  ⟨by decide,
   c3_cutoff_invariant filterDate2025 [postOld, postNew] (imageDefault postNew) (by decide)⟩

/-- C4.  In the final output no two posts share a trimmed title; every
output post is the image-defaulted copy of the first post (in
concatenation order, after the cutoff filter) bearing its trimmed
title; and every title surviving the filter is represented. -/
theorem c4_dedup_first_seen (cutoff : Int) (posts : List BlogPost) :
    (handlerFinal cutoff posts).Pairwise
      (fun p q => goTrimSpace p.title ≠ goTrimSpace q.title) ∧
    (∀ q ∈ handlerFinal cutoff posts,
      ∃ r, (cutoffFilter cutoff posts).find?
          (fun x => goTrimSpace x.title == goTrimSpace q.title) = some r ∧
        q = imageDefault r) ∧
    (∀ p ∈ cutoffFilter cutoff posts,
      ∃ q ∈ handlerFinal cutoff posts, goTrimSpace q.title = goTrimSpace p.title) := by
  refine ⟨?_, ?_, ?_⟩
  · unfold handlerFinal generateHTMLPosts
    rw [List.pairwise_map]
    have hperm := goSortSlice_perm lessBlogPost (dedupByTitle (cutoffFilter cutoff posts))
    have hsymm : ∀ {x y : BlogPost},
        goTrimSpace x.title ≠ goTrimSpace y.title →
        goTrimSpace y.title ≠ goTrimSpace x.title := fun h => fun he => h he.symm
    have hpw := (dedupByTitleAux_spec (cutoffFilter cutoff posts) []).2
    have := (List.Perm.pairwise_iff
      (R := fun p q : BlogPost => goTrimSpace p.title ≠ goTrimSpace q.title)
      hsymm hperm).mpr hpw
    refine this.imp ?_
    intro p q h
    rcases imageDefault_fields p with ⟨hp, _, _⟩
    rcases imageDefault_fields q with ⟨hq, _, _⟩
    rw [hp, hq]
    exact h
  · intro q hq
    rcases handlerFinal_mem _ _ _ hq with ⟨r, hr, rfl⟩
    refine ⟨r, ?_, rfl⟩
    rcases imageDefault_fields r with ⟨ht, _, _⟩
    rw [ht]
    exact (dedupByTitleAux_find (cutoffFilter cutoff posts) [] r hr).2
  · intro p hp
    rcases dedupByTitleAux_covers (cutoffFilter cutoff posts) [] p hp (by simp) with
      ⟨r, hr, hrt⟩
    refine ⟨imageDefault r, handlerFinal_mem_of cutoff posts r hr, ?_⟩
    rcases imageDefault_fields r with ⟨ht, _, _⟩
    rw [ht]
    exact hrt

/-- C4 (witness): Scenario B — two adapters contribute the same title
"Intro to X" under different URLs; exactly one survives, the first-seen
one. -/
theorem c4_witness :
    handlerFinal filterDate2025 [postIntroA, postIntroB] = [imageDefault postIntroA] ∧
    (∃ r, (cutoffFilter filterDate2025 [postIntroA, postIntroB]).find?
        (fun x => goTrimSpace x.title == goTrimSpace (imageDefault postIntroA).title) =
          some r ∧
      imageDefault postIntroA = imageDefault r) :=
  ⟨by decide,
   (c4_dedup_first_seen filterDate2025 [postIntroA, postIntroB]).2.1
     (imageDefault postIntroA) (by decide)⟩

/-- C5.  At the thirteen-post input `c5posts` the renderer's list is
sorted by `publishedAt` descending, but the two posts sharing a
`publishedAt` (`p0` before `p1` in concatenation order) come out as
`p1` before `p0`: `sort.Slice` (pdqsort) does not keep ties in their
original order, contradicting the claimed stability. -/
theorem c5_sort_slice_unstable :
    c5posts.map (fun p => p.title) =
      [String.toList "p0", String.toList "p1", String.toList "p2", String.toList "p3",
       String.toList "p4", String.toList "p5", String.toList "p6", String.toList "p7",
       String.toList "p8", String.toList "p9", String.toList "p10", String.toList "p11",
       String.toList "p12"] ∧
    (mkSimplePost "p0" (tsMar2025 + 7)).publishedAt =
      (mkSimplePost "p1" (tsMar2025 + 7)).publishedAt ∧
    (handlerFinal filterDate2025 c5posts).map (fun p => p.title) =
      [String.toList "p12", String.toList "p11", String.toList "p10", String.toList "p9",
       String.toList "p8", String.toList "p1", String.toList "p0", String.toList "p7",
       String.toList "p6", String.toList "p5", String.toList "p4", String.toList "p3",
       String.toList "p2"] ∧
    sortedByPublishedDesc (handlerFinal filterDate2025 c5posts) = true := by
  exact ⟨by decide, by decide, by decide, by decide⟩

/-- C6 (counterexample).  The claim's cascade says an entry whose
`<published>` is present but unparsable falls back to `<updated>`.  The
code does not: it keeps `time.Now()`.  Here `<published>` exists and
fails to parse, `<updated>` parses to 2025-03-01, yet the post carries
the construction time. -/
theorem c6_unparsable_published_ignores_updated :
    (findCap (patTag "published") entryBadPublished).isSome = true ∧
    parseAtomTime
      (goTrimSpace ((findCap (patTag "published") entryBadPublished).getD [])) = none ∧
    findCap (patTag "updated") entryBadPublished =
      some (String.toList "2025-03-01T00:00:00Z") ∧
    parseAtomTime (String.toList "2025-03-01T00:00:00Z") = some tsMar2025 ∧
    (mkRssPost tsJul2025 entryBadPublished).publishedAt = tsJul2025 ∧
    tsJul2025 ≠ tsMar2025 := by
  exact ⟨by decide, by decide, by decide, by decide, by decide, by decide⟩

/-- C6 (amended).  The resolution implemented by the RSS path: a
parsable `<published>` wins; a present-but-unparsable `<published>`
yields the construction time (`<updated>` is not consulted); with no
`<published>`, a parsable `<updated>` wins; otherwise the construction
time — so `publishedAt` is always either a parsed feed timestamp or the
construction-time clock, never left unset.  Scenario C (no
`<published>`, `<updated> = 2025-03-01T00:00:00Z`) yields exactly that
instant. -/
theorem c6_published_resolution (now : Int) (entry : List Char) :
    (mkRssPost now entry).publishedAt =
      (match findCap (patTag "published") entry with
       | some d => (parseAtomTime (goTrimSpace d)).getD now
       | none =>
         match findCap (patTag "updated") entry with
         | some d => (parseAtomTime (goTrimSpace d)).getD now
         | none => now) ∧
    (mkRssPost now entryOnlyUpdated).publishedAt = tsMar2025 := by
  exact ⟨rfl, rfl⟩

/-- C7.  The source's `determineCategory` coincides with the spec's
ordered first-match keyword classification (groups AI, 데이터, 검색,
엔지니어링, IT스타트업, tested case-insensitively against title and
summary, defaulting to 엔지니어링); a title containing
"Kubernetes 클러스터 운영기" lands in 엔지니어링, and any post matching
an AI keyword is classified AI regardless of other groups (first match
wins). -/
theorem c7_category_classification :
    (∀ title summary url, determineCategory title summary url = specCategorize title summary) ∧
    (∀ url, determineCategory (String.toList "Kubernetes 클러스터 운영기") [] url =
      String.toList "엔지니어링") ∧
    (∀ title summary url,
      kwAnyHit (goToLower title) (goToLower summary) aiKeywords = true →
      determineCategory title summary url = String.toList "AI") := by
  refine ⟨fun t s u => rfl, fun u => rfl, fun t s u h => ?_⟩
  unfold determineCategory
  dsimp only
  rw [if_pos h]

/-- C7 (witness): a title matching both the AI and the Engineering
groups is classified AI. -/
theorem c7_witness :
    kwAnyHit (goToLower (String.toList "AI 기반 Kubernetes 운영"))
      (goToLower []) aiKeywords = true ∧
    determineCategory (String.toList "AI 기반 Kubernetes 운영") [] [] =
      String.toList "AI" :=
  ⟨by decide,
   c7_category_classification.2.2 (String.toList "AI 기반 Kubernetes 운영") [] [] (by decide)⟩

/-- C8 (counterexample).  The claim bounds the summary of every post of
every adapter.  The Toss embedded-JSON path copies `shortDescription`
verbatim: a 250-character description yields a 250-character summary
with no ellipsis. -/
theorem c8_toss_summary_unbounded :
    (tossMapApiPost 0 tossLongPost).summary = List.replicate 250 'a' ∧
    200 < utf8Len (tossMapApiPost 0 tossLongPost).summary := by
  exact ⟨rfl, by decide⟩

/-- C8 (amended).  The Naver RSS path truncates: its summary is the
stripped content text, cut to its first 200 bytes with `"..."` appended
whenever the text exceeds 200 bytes (`len`/slicing in Go are
byte-based), hence always at most 203 bytes; the Toss embedded-JSON
path copies `shortDescription` verbatim, unbounded. -/
theorem c8_summary_truncation :
    (∀ now entry, (mkRssPost now entry).summary =
      rssSummary (((findCap patContent entry).map goTrimSpace).getD [])) ∧
    (∀ content, rssSummary content =
      (let s := stripHTMLTags content;
       if utf8Len s > 200 then goTruncBytes 200 s ++ String.toList "..." else s)) ∧
    (∀ now entry, utf8Len (mkRssPost now entry).summary ≤ 203) ∧
    (∀ now p, (tossMapApiPost now p).summary = p.shortDescription) := by
  have hb : ∀ content, utf8Len (rssSummary content) ≤ 203 := by
    intro content
    unfold rssSummary
    dsimp only
    split
    · rw [utf8Len_append]
      have := utf8Len_goTruncBytes (stripHTMLTags content) 200
      have h3 : utf8Len (String.toList "...") = 3 := by decide
      omega
    · omega
  refine ⟨fun now entry => by simp only [mkRssPost], fun _ => rfl,
    fun now entry => ?_, fun _ _ => rfl⟩
  have h1 : (mkRssPost now entry).summary =
      rssSummary (((findCap patContent entry).map goTrimSpace).getD []) := by
    simp only [mkRssPost]
  rw [h1]
  exact hb _

/-- C9.  The tech filter is idempotent: filtering an already-filtered
list (at the same clock reading, which fixes the 365-day cutoff) returns
it unchanged. -/
theorem c9_tech_filter_idempotent (now : Int) (posts : List BlogPost) :
    techFilterFilter now (techFilterFilter now posts) = techFilterFilter now posts := by
  unfold techFilterFilter
  rw [List.filter_filter]
  congr 1
  funext p
  exact Bool.and_self _

end HelloGo
